import Mathlib

/-!
Shallow embedding of the auraverse ETL core (parser, schema generator,
schema registry) with proofs about its extraction, type-inference,
storage-decision and schema-evolution behaviour.

Python strings are modelled as `List Char`; Python runtime values as the
inductive `PyVal`; Python dicts as insertion-ordered association lists
(`List (key × value)`), updated in place on key collision exactly as a
CPython dict is.  Arithmetic on ratios uses `ℚ` (the Python code divides
small nonnegative integers; IEEE doubles represent those divisions with
enough precision that every comparison against the 0.5/0.6/0.7/0.8
thresholds used here agrees with the exact rational comparison for the
doc counts any sane input produces, so `ℚ` is the faithful abstraction).
-/

set_option autoImplicit false

namespace Auraverse

/-- Python runtime values as they occur in candidate documents:
the JSON-ish closed variant `None | bool | int | float | str | list | dict`.
Floats are modelled as exact rationals (the code never does float
arithmetic on them; it only converts and compares). -/
inductive PyVal where
  | vNone : PyVal
  | vBool (b : Bool) : PyVal
  | vInt (n : Int) : PyVal
  | vFloat (q : ℚ) : PyVal
  | vStr (s : List Char) : PyVal
  | vList (l : List PyVal) : PyVal
  | vDict (d : List (List Char × PyVal)) : PyVal

mutual

/-- Structural equality test for `PyVal` (deriving cannot handle the
nested occurrence, so it is written out). -/
def PyVal.beq : PyVal → PyVal → Bool
  | .vNone, .vNone => true
  | .vBool a, .vBool b => a == b
  | .vInt a, .vInt b => a == b
  | .vFloat a, .vFloat b => a == b
  | .vStr a, .vStr b => a == b
  | .vList a, .vList b => PyVal.beqList a b
  | .vDict a, .vDict b => PyVal.beqDict a b
  | _, _ => false

/-- Pointwise `PyVal.beq` on lists. -/
def PyVal.beqList : List PyVal → List PyVal → Bool
  | [], [] => true
  | a :: as, b :: bs => PyVal.beq a b && PyVal.beqList as bs
  | _, _ => false

/-- Pointwise `PyVal.beq` on association lists. -/
def PyVal.beqDict : List (List Char × PyVal) → List (List Char × PyVal) → Bool
  | [], [] => true
  | (k1, v1) :: as, (k2, v2) :: bs =>
    k1 == k2 && PyVal.beq v1 v2 && PyVal.beqDict as bs
  | _, _ => false

end

mutual

theorem PyVal.beq_iff : ∀ a b : PyVal, PyVal.beq a b = true ↔ a = b
  | .vNone, .vNone => by simp [PyVal.beq]
  | .vBool a, .vBool b => by simp [PyVal.beq]
  | .vInt a, .vInt b => by simp [PyVal.beq]
  | .vFloat a, .vFloat b => by simp [PyVal.beq]
  | .vStr a, .vStr b => by simp [PyVal.beq]
  | .vList a, .vList b => by simp [PyVal.beq, PyVal.beqList_iff a b]
  | .vDict a, .vDict b => by simp [PyVal.beq, PyVal.beqDict_iff a b]
  | .vNone, .vBool _ | .vNone, .vInt _ | .vNone, .vFloat _ | .vNone, .vStr _
  | .vNone, .vList _ | .vNone, .vDict _
  | .vBool _, .vNone | .vBool _, .vInt _ | .vBool _, .vFloat _
  | .vBool _, .vStr _ | .vBool _, .vList _ | .vBool _, .vDict _
  | .vInt _, .vNone | .vInt _, .vBool _ | .vInt _, .vFloat _
  | .vInt _, .vStr _ | .vInt _, .vList _ | .vInt _, .vDict _
  | .vFloat _, .vNone | .vFloat _, .vBool _ | .vFloat _, .vInt _
  | .vFloat _, .vStr _ | .vFloat _, .vList _ | .vFloat _, .vDict _
  | .vStr _, .vNone | .vStr _, .vBool _ | .vStr _, .vInt _
  | .vStr _, .vFloat _ | .vStr _, .vList _ | .vStr _, .vDict _
  | .vList _, .vNone | .vList _, .vBool _ | .vList _, .vInt _
  | .vList _, .vFloat _ | .vList _, .vStr _ | .vList _, .vDict _
  | .vDict _, .vNone | .vDict _, .vBool _ | .vDict _, .vInt _
  | .vDict _, .vFloat _ | .vDict _, .vStr _ | .vDict _, .vList _ => by
    simp [PyVal.beq]

theorem PyVal.beqList_iff : ∀ a b : List PyVal, PyVal.beqList a b = true ↔ a = b
  | [], [] => by simp [PyVal.beqList]
  | a :: as, b :: bs => by
    simp [PyVal.beqList, PyVal.beq_iff a b, PyVal.beqList_iff as bs]
  | [], _ :: _ => by simp [PyVal.beqList]
  | _ :: _, [] => by simp [PyVal.beqList]

theorem PyVal.beqDict_iff :
    ∀ a b : List (List Char × PyVal), PyVal.beqDict a b = true ↔ a = b
  | [], [] => by simp [PyVal.beqDict]
  | (k1, v1) :: as, (k2, v2) :: bs => by
    simp [PyVal.beqDict, PyVal.beq_iff v1 v2, PyVal.beqDict_iff as bs,
      and_assoc]
  | [], _ :: _ => by simp [PyVal.beqDict]
  | _ :: _, [] => by simp [PyVal.beqDict]

end

instance : DecidableEq PyVal := fun a b =>
  decidable_of_iff _ (PyVal.beq_iff a b)

/-- A Python dict with string keys (insertion-ordered association list). -/
abbrev PyDict (α : Type) : Type := List (List Char × α)

/-- Characters matched by Python's regex class `\s` on `str` input and by
`str.strip()` / `str.isspace()`: ASCII whitespace 0x09–0x0d and 0x20,
the file/group/record/unit separators 0x1c–0x1f, and the Unicode
whitespace code points. -/
def pySpace (c : Char) : Bool :=
  let n := c.toNat
  (9 ≤ n && n ≤ 13) || n == 32 || (28 ≤ n && n ≤ 31) || n == 0x85 ||
  n == 0xa0 || n == 0x1680 || (0x2000 ≤ n && n ≤ 0x200a) || n == 0x2028 ||
  n == 0x2029 || n == 0x202f || n == 0x205f || n == 0x3000

/-- Line-boundary characters of Python's `str.splitlines`. -/
def lineBoundary (c : Char) : Bool :=
  let n := c.toNat
  n == 10 || n == 13 || n == 11 || n == 12 || n == 28 || n == 29 || n == 30 ||
  n == 0x85 || n == 0x2028 || n == 0x2029

/-- Characters removed by `_RE_CONTROL = [\x00-\x08\x0e-\x1f\x7f-\x9f]+`
in `parser._clean_text`. -/
def ctrlChar (c : Char) : Bool :=
  let n := c.toNat
  n ≤ 8 || (0x0e ≤ n && n ≤ 0x1f) || (0x7f ≤ n && n ≤ 0x9f)

/-- Worker for `subRuns`: `inRun` records whether the previous character
was part of a run being replaced (so the replacement is emitted once per
maximal run). -/
def subRunsGo (p : Char → Bool) (r : List Char) : Bool → List Char → List Char
  | _, [] => []
  | inRun, c :: cs =>
    if p c then (if inRun then [] else r) ++ subRunsGo p r true cs
    else c :: subRunsGo p r false cs

/-- `re.sub` for a pattern of the shape `[class]+`: every maximal run of
characters satisfying `p` is replaced by the replacement `r`. -/
def subRuns (p : Char → Bool) (r : List Char) (l : List Char) : List Char :=
  subRunsGo p r false l

/-- A finished whitespace-free token of `subLongTokens`: tokens of 120 or
more characters become one space (`_RE_LONG_TOKEN = \S{120,}`). -/
def emitTok (tok : List Char) : List Char :=
  if 120 ≤ tok.length then [' '] else tok

/-- Worker for `subLongTokens`, accumulating the current token. -/
def subLongTokensGo : List Char → List Char → List Char
  | tok, [] => emitTok tok
  | tok, c :: cs =>
    if pySpace c then emitTok tok ++ c :: subLongTokensGo [] cs
    else subLongTokensGo (tok ++ [c]) cs

/-- `re.sub(r'\S{120,}', ' ', ·)` of `_clean_text`: every maximal run of
non-whitespace characters of length at least 120 becomes one space. -/
def subLongTokens (l : List Char) : List Char :=
  subLongTokensGo [] l

/-- Python `str.strip()`. -/
def pyStrip (l : List Char) : List Char :=
  ((l.dropWhile pySpace).reverse.dropWhile pySpace).reverse

/-- `parser._clean_text`: strip control characters to spaces, normalize CR
to LF, suppress whitespace-free tokens of 120+ characters, collapse every
whitespace run to a single space, and trim. -/
def _clean_text (raw : List Char) : List Char :=
  let t1 := subRuns ctrlChar [' '] raw
  let t2 := t1.map (fun c => if c = '\r' then '\n' else c)
  let t3 := subLongTokens t2
  let t4 := subRuns pySpace [' '] t3
  pyStrip t4

/-- Worker for `pySplitlines`, accumulating the current line (a CR
followed by LF consumes both as one boundary). -/
def pySplitlinesGo : List Char → List Char → List (List Char)
  | acc, [] => if acc = [] then [] else [acc]
  | acc, '\r' :: '\n' :: cs => acc :: pySplitlinesGo [] cs
  | acc, c :: cs =>
    if lineBoundary c then acc :: pySplitlinesGo [] cs
    else pySplitlinesGo (acc ++ [c]) cs

/-- A non-boundary head character is appended to the current line. -/
theorem pySplitlinesGo_step (acc : List Char) (a : Char) (as : List Char)
    (ha : lineBoundary a = false) :
    pySplitlinesGo acc (a :: as) = pySplitlinesGo (acc ++ [a]) as := by
  have hr : a ≠ '\r' := by
    rintro rfl
    exact absurd ha (by decide)
  rw [pySplitlinesGo.eq_def]
  split
  · rename_i heq
    exact absurd heq (by simp)
  · rename_i heq
    rw [List.cons.injEq] at heq
    exact absurd heq.1 hr
  · rename_i heq
    rw [List.cons.injEq] at heq
    obtain ⟨rfl, rfl⟩ := heq
    simp [ha]

/-- Python `str.splitlines()` (no `keepends`): split at each line-boundary
character, treating a CRLF pair as a single boundary, with no trailing
empty line after a final boundary. -/
def pySplitlines (s : List Char) : List (List Char) :=
  pySplitlinesGo [] s

/-- ASCII uppercase letter (code points 65–90). -/
def upperAlpha (c : Char) : Bool :=
  65 ≤ c.toNat && c.toNat ≤ 90

/-- ASCII lowercase letter (code points 97–122). -/
def lowerAlpha (c : Char) : Bool :=
  97 ≤ c.toNat && c.toNat ≤ 122

/-- ASCII decimal digit (code points 48–57). -/
def asciiDigit (c : Char) : Bool :=
  48 ≤ c.toNat && c.toNat ≤ 57

/-- The character class of `_RE_SAFE_KEY = ^[A-Za-z0-9_\- ]{1,60}$`. -/
def safeKeyChar (c : Char) : Bool :=
  upperAlpha c || lowerAlpha c || asciiDigit c ||
  c.toNat == 95 || c.toNat == 45 || c.toNat == 32

/-- The character class kept by the fallback sanitize
`re.sub(r'[^A-Za-z0-9_ ]+', '', key)` in `extract_kv_pairs`. -/
def kvSanChar (c : Char) : Bool :=
  upperAlpha c || lowerAlpha c || asciiDigit c ||
  c.toNat == 95 || c.toNat == 32

/-- `parser.extract_kv_pairs`: for each line containing a colon, split on
the first colon, trim both sides, keep the key verbatim when it matches
the safe-key regex, otherwise strip disallowed characters (discarding the
pair when nothing is left). -/
def extract_kv_pairs (text : List Char) : List (List Char × List Char) :=
  (pySplitlines text).filterMap fun line =>
    if !line.contains ':' then none
    else
      let key := pyStrip (line.takeWhile (fun c => c ≠ ':'))
      let val := pyStrip ((line.dropWhile (fun c => c ≠ ':')).drop 1)
      if key = [] || 80 < key.length then none
      else if 1 ≤ key.length && key.length ≤ 60 && key.all safeKeyChar then
        some (key, val)
      else
        let key2 := pyStrip (key.filter kvSanChar)
        if key2 = [] then none else some (key2, val)

/-- Record splitter of Python's `csv.reader` over an in-memory string:
a newline outside a quoted section ends the record, a final nonempty
partial record is emitted, and a trailing newline adds no blank record. -/
def csvSplitRecs : List Char → Bool → List Char → List (List Char)
  | [], _, acc => if acc = [] then [] else [acc]
  | c :: cs, inQ, acc =>
    if c = '\n' && !inQ then acc :: csvSplitRecs cs false []
    else csvSplitRecs cs (if c = '"' then !inQ else inQ) (acc ++ [c])

/-- Field splitter of one csv record: a comma outside quotes separates
fields, a quote character toggles quoted mode, and a doubled quote inside
a quoted section is a literal quote. -/
def csvFields : List Char → Bool → List Char → List (List Char)
  | [], _, acc => [acc]
  | '"' :: '"' :: cs2, true, acc => csvFields cs2 true (acc ++ ['"'])
  | '"' :: cs, inQ, acc => csvFields cs (!inQ) acc
  | c :: cs, inQ, acc =>
    if c = ',' && !inQ then acc :: csvFields cs false []
    else csvFields cs inQ (acc ++ [c])

/-- One row of `csv.reader` from one record (a blank line yields `[]`). -/
def csvParseRecord (r : List Char) : List (List Char) :=
  if r = [] then [] else csvFields r false []

/-- `list(csv.reader(io.StringIO(block)))`. -/
def csvReaderRows (block : List Char) : List (List (List Char)) :=
  (csvSplitRecs block false []).map csvParseRecord

/-- `re.search(r'[A-Za-z]', ·)` used for the header checks. -/
def asciiAlpha (c : Char) : Bool :=
  upperAlpha c || lowerAlpha c

/-- The word class `[A-Za-z0-9_]` of `_RE_KEY_NORMALIZE` (its complement
is stripped) and of the SQL column-name rewrite. -/
def wordChar (c : Char) : Bool :=
  upperAlpha c || lowerAlpha c || asciiDigit c || c.toNat == 95

/-- `str.lower()` on one character.  Only ASCII letters matter here: the
handful of non-ASCII code points whose Python lowercase form contains an
ASCII letter (e.g. the Kelvin sign) are modelled as unchanged; they are
removed by the `[A-Za-z0-9_]` filters that follow every use of this
function, exactly as their lowercase forms never reintroduce `A`–`Z`. -/
def pyLowerChar (c : Char) : Char :=
  if upperAlpha c then Char.ofNat (c.toNat + 32) else c

/-- The key rewrite of `parser._sanitize_keys`:
`k.strip().lower()`, then `\s+` runs to `_`, then strip `[^A-Za-z0-9_]`. -/
def sanitizeKey (k : List Char) : List Char :=
  ((subRuns pySpace ['_'] ((pyStrip k).map pyLowerChar)).filter wordChar)

/-- CPython dict assignment `m[k] = f(old)`: an existing key keeps its
position and gets the new value, a new key is appended at the end. -/
def dictUpd {α : Type} (m : PyDict α) (k : List Char) (f : Option α → α) :
    PyDict α :=
  match m with
  | [] => [(k, f none)]
  | e :: es => if e.1 = k then (k, f (some e.2)) :: es else e :: dictUpd es k f

/-- Dict lookup `m[k]` (first entry with the key; dicts built by
`dictUpd` have unique keys). -/
def dictGet {α : Type} (m : PyDict α) (k : List Char) : Option α :=
  match m with
  | [] => none
  | e :: es => if e.1 = k then some e.2 else dictGet es k

/-- CPython dict assignment `m[k] = v`. -/
def dictInsert {α : Type} (m : PyDict α) (k : List Char) (v : α) : PyDict α :=
  dictUpd m k (fun _ => v)

/-- `parser._sanitize_keys`: rewrite every key, dropping the pair when the
rewritten key is empty or longer than 60 characters. -/
def _sanitize_keys {α : Type} (d : PyDict α) : PyDict α :=
  d.foldl (fun out e =>
    let k2 := sanitizeKey e.1
    if k2 = [] ∨ 60 < k2.length then out else dictInsert out k2 e.2) []

/-- The dict comprehension of `extract_csv_fragments`:
`header[j].strip() ↦ r[j].strip()` (empty string past the row's end). -/
def csvRowToObj (header row : List (List Char)) : PyDict (List Char) :=
  (List.range header.length).foldl
    (fun out j => dictInsert out (pyStrip (header.getD j []))
      (pyStrip (row.getD j []))) []

/-- `"\n".join(·)`. -/
def joinLinesNL : List (List Char) → List Char
  | [] => []
  | [l] => l
  | l :: ls => l ++ '\n' :: joinLinesNL ls

/-- One window of `extract_csv_fragments`: the block of up to 20 lines
starting at line `i`, skipped unless it contains a comma, parses to at
least two csv rows, and has an alphabetic header cell; the data rows
matching the header width each yield one sanitized record. -/
def csvBlockFragments (lines : List (List Char)) (i : Nat) :
    List (PyDict (List Char)) :=
  let block := joinLinesNL ((lines.drop i).take 20)
  if block.count ',' < 1 then []
  else
    let reader := csvReaderRows block
    if reader.length < 2 then []
    else
      let header := reader.headD []
      if !header.any (fun h => h.any asciiAlpha) then []
      else
        let good := (reader.drop 1).filter
          (fun r => decide (r.length = header.length))
        if good = [] then []
        else good.map (fun r => _sanitize_keys (csvRowToObj header r))

/-- `parser.extract_csv_fragments`: slide a window of up to 20 non-blank
lines from every start index and concatenate the windows' records. -/
def extract_csv_fragments (text : List Char) : List (PyDict (List Char)) :=
  let lines := (pySplitlines text).filter (fun ln => !decide (pyStrip ln = []))
  (List.range (max 1 lines.length)).foldr
    (fun i acc => csvBlockFragments lines i ++ acc) []

/-- The fragment bundle built by `parser.extract_fragments_from_bytes`. -/
structure FragmentBundle where
  json_fragments : List (PyDict PyVal)
  html_tables : List (PyDict (List Char))
  csv_fragments : List (PyDict (List Char))
  kv_pairs : List (List Char × List Char)
  raw_text : List Char
deriving DecidableEq

/-- `parser.extract_fragments_from_bytes` from the point where a text has
been obtained (both the PDF collaborator and the UTF-8 decode produce a
string, so every byte input reaches this function).  The JSON-fragment
scanner (`json.loads` plus repair) and the BeautifulSoup table walk are
external collaborators here, abstracted as the parameters `jsonExtract`
and `htmlExtract`; both are fed the cleaned text, exactly as in the
source. -/
def extract_fragments_from_text
    (jsonExtract : List Char → List (PyDict PyVal))
    (htmlExtract : List Char → List (PyDict (List Char)))
    (raw : List Char) : FragmentBundle :=
  let text := _clean_text raw
  { json_fragments := jsonExtract text
    html_tables := htmlExtract text
    csv_fragments := extract_csv_fragments text
    kv_pairs := extract_kv_pairs text
    raw_text := text.take 10000 }

/-! ### schema_generator.py -/

/-- Tail check for a Python digit group `\d+(_\d+)*`: every character is
a digit or an underscore directly followed by a digit, and the last
character is a digit. -/
def digitsUndTail : List Char → Bool
  | [] => true
  | [c] => asciiDigit c
  | c :: c2 :: cs =>
    (asciiDigit c || (c = '_' && asciiDigit c2)) && digitsUndTail (c2 :: cs)

/-- A nonempty digit string with optional single `_` group separators
strictly between digits, as accepted inside Python `int()`/`float()`. -/
def digitsUnd (l : List Char) : Bool :=
  match l with
  | [] => false
  | c :: _ => asciiDigit c && digitsUndTail l

/-- Drop one leading `+` or `-`. -/
def stripSign : List Char → List Char
  | '+' :: r => r
  | '-' :: r => r
  | l => l

/-- Python `int(s)` succeeds on the string `s`: stripped, optionally
signed digit groups.  (CPython also accepts non-ASCII decimal digits;
no claim turns on those.) -/
def intParsable (s : List Char) : Bool :=
  digitsUnd (stripSign (pyStrip s))

/-- Mantissa of a Python float literal: digits, optionally with a single
dot carrying digits on at least one side. -/
def floatMantissa (l : List Char) : Bool :=
  let before := l.takeWhile (fun c => c ≠ '.')
  match l.dropWhile (fun c => c ≠ '.') with
  | [] => digitsUnd before
  | _ :: after =>
    !after.contains '.' &&
    ((digitsUnd before && (after.isEmpty || digitsUnd after)) ||
     (before.isEmpty && digitsUnd after))

/-- Python `float(s)` succeeds on the string `s`: stripped, optionally
signed mantissa with optional exponent, or inf/infinity/nan. -/
def floatParsable (s : List Char) : Bool :=
  let body := stripSign (pyStrip s)
  let lower := body.map pyLowerChar
  if lower = "inf".toList || lower = "infinity".toList || lower = "nan".toList
  then true
  else
    let mant := body.takeWhile (fun c => c ≠ 'e' && c ≠ 'E')
    match body.dropWhile (fun c => c ≠ 'e' && c ≠ 'E') with
    | [] => floatMantissa mant
    | _ :: expo => floatMantissa mant && digitsUnd (stripSign expo)

mutual

/-- Python `repr` of a value, as far as the code ever looks at it.  The
float case is an approximation (the code never reaches it: floats are
filtered out before any stringification); string escaping inside nested
reprs is omitted — all the consumers care about is that bracketed reprs
are never numeric, boolean-like or shaped like the sanitized keys. -/
def pyRepr : PyVal → List Char
  | .vNone => "None".toList
  | .vBool true => "True".toList
  | .vBool false => "False".toList
  | .vInt n => (toString n).toList
  | .vFloat q => (toString q).toList
  | .vStr s => '\'' :: (s ++ ['\''])
  | .vList l => '[' :: (List.intercalate ", ".toList (pyReprList l) ++ [']'])
  | .vDict d =>
    '\x7b' :: (List.intercalate ", ".toList (pyReprDict d) ++ ['\x7d'])

/-- `pyRepr` over the elements of a list. -/
def pyReprList : List PyVal → List (List Char)
  | [] => []
  | v :: vs => pyRepr v :: pyReprList vs

/-- `pyRepr` over the entries of a dict. -/
def pyReprDict : List (List Char × PyVal) → List (List Char)
  | [] => []
  | (k, v) :: es =>
    ('\'' :: (k ++ "': ".toList) ++ pyRepr v) :: pyReprDict es

end

/-- Python `str(v)`. -/
def pyStr : PyVal → List Char
  | .vStr s => s
  | v => pyRepr v

/-- `schema_generator._is_int`: `int(v)` succeeds and `v` is not a bool.
`int()` accepts ints and floats (the rational model has no inf/nan) and
parsable digit strings. -/
def _is_int : PyVal → Bool
  | .vBool _ => false
  | .vInt _ => true
  | .vFloat _ => true
  | .vStr s => intParsable s
  | _ => false

/-- `schema_generator._is_float`: `float(v)` succeeds and `_is_int v` is
false.  `float(True)` is `1.0` and `_is_int` rejects bools, so actual
Python booleans satisfy this predicate. -/
def _is_float : PyVal → Bool
  | .vBool _ => true
  | .vInt _ => false
  | .vFloat _ => false
  | .vStr s => floatParsable s && !intParsable s
  | _ => false

/-- The eight lowercase words accepted by `_is_bool`. -/
def boolWords : List (List Char) :=
  ["true".toList, "false".toList, "1".toList, "0".toList,
   "yes".toList, "no".toList, "y".toList, "n".toList]

/-- `schema_generator._is_bool`: actual bools, else `str(v)` stripped and
lowercased must be one of true/false/1/0/yes/no/y/n.  Through `str(·)`
that holds for the ints 1 and 0 and for matching strings; floats print
with a fraction part or exponent, `None` prints as `None`, and list/dict
reprs are bracketed, so none of those match. -/
def _is_bool : PyVal → Bool
  | .vBool _ => true
  | .vStr s => boolWords.contains ((pyStrip s).map pyLowerChar)
  | .vInt n => n == 1 || n == 0
  | _ => false

/-- `schema_generator._is_date` with the external dateutil parser
abstracted as `dp` (the code calls `dateparser.parse(s, fuzzy=False)` and
treats success as `true`).  `None`, ints, floats and bools are rejected
up front (`isinstance(v, (int, float))` covers bools); otherwise the
stripped string form must have length 4–40 and satisfy the parser. -/
def _is_date (dp : List Char → Bool) : PyVal → Bool
  | .vNone => false
  | .vInt _ => false
  | .vFloat _ => false
  | .vBool _ => false
  | v =>
    let s := pyStrip (pyStr v)
    4 ≤ s.length && s.length ≤ 40 && dp s

/-- `schema_generator._is_scalar` under the default
`TREAT_LIST_AS_NONSCALAR = True`: anything but a list or dict. -/
def _is_scalar : PyVal → Bool
  | .vList _ => false
  | .vDict _ => false
  | _ => true

/-- `StorageDecisionConfig.CONSISTENCY_THRESHOLD` default. -/
def CONSISTENCY_THRESHOLD : ℚ := 7 / 10
/-- `StorageDecisionConfig.MIN_COLUMNS_FOR_SQL` default. -/
def MIN_COLUMNS_FOR_SQL : Nat := 1
/-- `StorageDecisionConfig.MIN_DOCS_FOR_CONSISTENCY` default. -/
def MIN_DOCS_FOR_CONSISTENCY : Nat := 2
/-- `StorageDecisionConfig.DATE_THRESHOLD` default. -/
def DATE_THRESHOLD : ℚ := 3 / 5
/-- `StorageDecisionConfig.INT_THRESHOLD` default. -/
def INT_THRESHOLD : ℚ := 4 / 5
/-- `StorageDecisionConfig.FLOAT_THRESHOLD` default. -/
def FLOAT_THRESHOLD : ℚ := 1 / 2

/-- The first component of `detect_storage_type`'s result. -/
inductive StorageType where
  | sql
  | nosql
  | object
deriving DecidableEq

/-- The reason strings of `detect_storage_type`, with their numeric
payloads kept structured (the code interpolates them into f-strings:
`"found nested structures in N docs"` and
`"consistent flat rows (C cols, consistency=R)"` with `R` printed to two
decimal places). -/
inductive StorageReason where
  | containsCsvFragments
  | containsHtmlTables
  | onlyKeyValuePairs
  | noStructuredDocs
  | nestedStructures (n : Nat)
  | consistentFlatRows (cols : Nat) (consistency : ℚ)
  | flatNonScalar
  | noConsistentTabular
deriving DecidableEq

/-- `set(d.keys())`. -/
def keyset (d : PyDict PyVal) : Finset (List Char) :=
  (d.map Prod.fst).toFinset

/-- Whether a doc has a dict or list value (the inner loop of the
nested-structure count breaks at the first hit, so each doc counts at
most once). -/
def hasNestedValue (d : PyDict PyVal) : Bool :=
  d.any (fun e => !_is_scalar e.2)

/-- `isinstance(d, dict)` as a partial projection. -/
def asDict : PyVal → Option (PyDict PyVal)
  | .vDict d => some d
  | _ => none

/-- `schema_generator.detect_storage_type` with the default config. -/
def detect_storage_type (sample_docs : List PyVal)
    (fragments : FragmentBundle) : StorageType × StorageReason :=
  if fragments.csv_fragments ≠ [] then (.sql, .containsCsvFragments)
  else if fragments.html_tables ≠ [] then (.sql, .containsHtmlTables)
  else
    let docs := sample_docs.filterMap asDict
    if docs = [] then
      if fragments.kv_pairs ≠ [] then (.object, .onlyKeyValuePairs)
      else (.object, .noStructuredDocs)
    else
      let nested_count := docs.countP hasNestedValue
      let keysets := docs.map keyset
      let base := keysets.headD ∅
      let same_keys := keysets.countP (fun s => decide (s = base))
      let consistency : ℚ := (same_keys : ℚ) / (keysets.length : ℚ)
      if 0 < nested_count then (.nosql, .nestedStructures nested_count)
      else if MIN_DOCS_FOR_CONSISTENCY ≤ docs.length ∧
          CONSISTENCY_THRESHOLD ≤ consistency ∧
          MIN_COLUMNS_FOR_SQL ≤ base.card then
        if docs.all (fun d => d.all (fun e => _is_scalar e.2)) then
          (.sql, .consistentFlatRows base.card consistency)
        else (.nosql, .flatNonScalar)
      else (.object, .noConsistentTabular)

/-- The per-field tally record of `infer_field_types` (`stats[k]`). -/
structure FieldStats where
  counts : Nat
  intc : Nat
  floatc : Nat
  boolc : Nat
  datec : Nat
  objectc : Nat
  arrayc : Nat
  sample : PyVal
deriving DecidableEq

/-- Fresh `stats[k]` entry (all tallies zero, `sample` = first value). -/
def initStats (v : PyVal) : FieldStats :=
  ⟨0, 0, 0, 0, 0, 0, 0, v⟩

/-- One pass of the tally chain of `infer_field_types` over one value:
int, else float, else bool, else date, else object, else array. -/
def tallyValue (dp : List Char → Bool) (s : FieldStats) (v : PyVal) :
    FieldStats :=
  let s := { s with counts := s.counts + 1 }
  if _is_int v then { s with intc := s.intc + 1 }
  else if _is_float v then { s with floatc := s.floatc + 1 }
  else if _is_bool v then { s with boolc := s.boolc + 1 }
  else if _is_date dp v then { s with datec := s.datec + 1 }
  else
    match v with
    | .vDict _ => { s with objectc := s.objectc + 1 }
    | .vList _ => { s with arrayc := s.arrayc + 1 }
    | _ => s

/-- The stats-building loop of `infer_field_types` (non-dict docs are
skipped). -/
def fieldStats (dp : List Char → Bool) (docs : List PyVal) :
    PyDict FieldStats :=
  docs.foldl (fun m d =>
    match d with
    | .vDict kvs =>
      kvs.foldl (fun m e =>
        dictUpd m e.1 (fun old => tallyValue dp (old.getD (initStats e.2)) e.2))
        m
    | _ => m) []

/-- The precedence chain of `infer_field_types` applied to one field's
tallies.  The decimal combo-ratio 0.8 and the boolean threshold 0.8 are
hard-coded literals in the source (not config fields). -/
def classifyStats (s : FieldStats) : List Char :=
  let c : ℚ := (s.counts : ℚ)
  if 0 < s.objectc then "object".toList
  else if 0 < s.arrayc then "array".toList
  else if DATE_THRESHOLD ≤ (s.datec : ℚ) / c then "date".toList
  else if INT_THRESHOLD ≤ (s.intc : ℚ) / c then "integer".toList
  else if FLOAT_THRESHOLD ≤ (s.floatc : ℚ) / c ∨
      ((4 : ℚ) / 5 ≤ ((s.intc : ℚ) + (s.floatc : ℚ)) / c ∧ 0 < s.floatc) then
    "decimal".toList
  else if (4 : ℚ) / 5 ≤ (s.boolc : ℚ) / c then "boolean".toList
  else "string".toList

/-- One entry of the mapping returned by `infer_field_types`.  The
source's `example` key is spelled `exampleVal` (`example` is a Lean
keyword). -/
structure InferredField where
  type : List Char
  exampleVal : PyVal
  count : Nat
deriving DecidableEq

/-- `schema_generator.infer_field_types`. -/
def infer_field_types (dp : List Char → Bool) (docs : List PyVal) :
    PyDict InferredField :=
  (fieldStats dp docs).map
    (fun e => (e.1, ⟨classifyStats e.2, e.2.sample, e.2.counts⟩))

/-- `schema_generator._sql_type_from_inferred`. -/
def _sql_type_from_inferred (t : List Char) : List Char :=
  if t = "integer".toList then "INTEGER".toList
  else if t = "decimal".toList then "DECIMAL".toList
  else if t = "boolean".toList then "BOOLEAN".toList
  else if t = "date".toList then "TIMESTAMP".toList
  else "TEXT".toList

/-- The column-name rewrite of `generate_sql_schema`:
`re.sub(r'[^A-Za-z0-9_]', '_', k).lower()`. -/
def sqlColName (k : List Char) : List Char :=
  (k.map (fun c => if wordChar c then c else '_')).map pyLowerChar

/-- Result of `generate_sql_schema`; `cols` holds, in order, exactly the
(name, sql type) pairs printed as the column definitions of the DDL. -/
structure SqlSchema where
  ddl : List Char
  cols : List (List Char × List Char)
  fields : PyDict InferredField
deriving DecidableEq

/-- `schema_generator.generate_sql_schema`. -/
def generate_sql_schema (dp : List Char → Bool) (table_name : List Char)
    (docs : List PyVal) : SqlSchema :=
  if docs = [] then ⟨[], [], []⟩
  else
    let ft := infer_field_types dp docs
    let cols := ft.map
      (fun e => (sqlColName e.1, _sql_type_from_inferred e.2.type))
    let colLines := cols.map
      (fun c => "    \"".toList ++ c.1 ++ ('"' :: ' ' :: c.2))
    ⟨"CREATE TABLE \"".toList ++ table_name ++ "\" (\n".toList ++
      List.intercalate ",\n".toList colLines ++ "\n);".toList, cols, ft⟩

/-! ### schema_infer.py and schema_registry.py -/

/-- Python truthiness of a value (used by the `x or y` defaulting in
`_merge_field_meta`). -/
def pyTruthy : PyVal → Bool
  | .vNone => false
  | .vBool b => b
  | .vInt n => !decide (n = 0)
  | .vFloat q => !decide (q = 0)
  | .vStr s => !s.isEmpty
  | .vList l => !l.isEmpty
  | .vDict d => !d.isEmpty

/-- `type(v).__name__`. -/
def pyTypeName : PyVal → List Char
  | .vNone => "NoneType".toList
  | .vBool _ => "bool".toList
  | .vInt _ => "int".toList
  | .vFloat _ => "float".toList
  | .vStr _ => "str".toList
  | .vList _ => "list".toList
  | .vDict _ => "dict".toList

/-- Lexicographic order on strings by code point (Python `<` on `str`). -/
def listCharLe (a b : List Char) : Bool :=
  match a, b with
  | [], _ => true
  | _ :: _, [] => false
  | c :: cs, d :: ds => if c = d then listCharLe cs ds else decide (c < d)

/-- Insertion step of a stable sort by key. -/
def insertSortedBy {α : Type} (x : List Char × α) :
    List (List Char × α) → List (List Char × α)
  | [] => [x]
  | y :: ys =>
    if listCharLe x.1 y.1 then x :: y :: ys else y :: insertSortedBy x ys

/-- Python `sorted(d.items())` for a dict (keys are unique, so the tuple
comparison never looks past the key). -/
def sortByKey {α : Type} (l : List (List Char × α)) :
    List (List Char × α) :=
  l.foldr insertSortedBy []

/-- Insertion step of sorting a list of strings. -/
def insertSortedStr (x : List Char) : List (List Char) → List (List Char)
  | [] => [x]
  | y :: ys => if listCharLe x y then x :: y :: ys else y :: insertSortedStr x ys

/-- `sorted(set(l))` for a list of strings. -/
def sortedSet (l : List (List Char)) : List (List Char) :=
  l.dedup.foldr insertSortedStr []

/-- One entry of `infer_schema`'s `properties`: the accumulated runtime
type-tag set (a Python `set`, modelled as a first-insertion-ordered
deduplicated list — every consumer re-sorts or treats it as a set) and
the first non-`None` example (`None` while unset, as in the source). -/
structure InfProp where
  types : List (List Char)
  exampleVal : PyVal
deriving DecidableEq

/-- `schema_infer.infer_schema`'s `properties` map: per key (skipping
keys that start with `_`), the set of observed runtime type names and
the first non-`None` value. -/
def infer_schema_properties (docs : List PyVal) : PyDict InfProp :=
  docs.foldl (fun props d =>
    match d with
    | .vDict kvs =>
      kvs.foldl (fun props e =>
        if e.1.head? = some '_' then props
        else
          dictUpd props e.1 (fun old =>
            let p := old.getD ⟨[], .vNone⟩
            ⟨if p.types.contains (pyTypeName e.2) then p.types
              else p.types ++ [pyTypeName e.2],
             if p.exampleVal = .vNone then e.2 else p.exampleVal⟩)) props
    | _ => props) []

/-- `schema_registry.MIN_PROMOTE_COUNT`. -/
def MIN_PROMOTE_COUNT : Nat := 2

/-- `schema_registry._is_plausible_field_name`: stripped name nonempty,
at most 120 characters, no code point below 32. -/
def _is_plausible_field_name (name : List Char) : Bool :=
  let n := pyStrip name
  !n.isEmpty && n.length ≤ 120 && n.all (fun c => 32 ≤ c.toNat)

/-- A `fields_map` entry.  Timestamps are modelled as naturals standing
for the ISO strings the code writes (the code only copies them around;
being nonempty strings they are always truthy).  The source's `example`
key is spelled `exampleVal`. -/
structure FieldMeta where
  name : List Char
  types : List (List Char)
  count : Nat
  first_seen : Nat
  last_seen : Nat
  exampleVal : PyVal
deriving DecidableEq

/-- `schema_registry._make_field_meta`. -/
def _make_field_meta (name : List Char) (types : List (List Char))
    (ex : PyVal) (seen_time : Nat) : FieldMeta :=
  ⟨name, sortedSet types, 1, seen_time, seen_time, ex⟩

/-- `schema_registry._merge_field_meta` on two present metas (the
`if not old_meta` guard is handled at the call site): `or`-defaulting
keeps the new name unless empty, the old first_seen and new last_seen
(timestamps are truthy), and the old example unless falsy. -/
def _merge_field_meta (old new : FieldMeta) : FieldMeta :=
  ⟨if !new.name.isEmpty then new.name else old.name,
   sortedSet (old.types ++ new.types),
   old.count + new.count,
   old.first_seen,
   new.last_seen,
   if pyTruthy old.exampleVal then old.exampleVal else new.exampleVal⟩

/-- `schema_registry._properties_to_fields_map`. -/
def _properties_to_fields_map (props : PyDict InfProp) (seen_time : Nat) :
    PyDict FieldMeta :=
  props.map (fun e => (e.1, _make_field_meta e.1 e.2.types e.2.exampleVal seen_time))

/-- `schema_registry._fields_map_to_doc`: the metas in key-sorted order. -/
def _fields_map_to_doc (m : PyDict FieldMeta) : List FieldMeta :=
  (sortByKey m).map (fun e => e.2)

/-- `schema_registry.compute_diff`.  `type_changes` entries carry the
field name and the two stored type lists (the code emits them as lists
of the corresponding Python sets); a change is recorded when the two
lists differ as sets. -/
structure SchemaDiff where
  added : List (List Char)
  removed : List (List Char)
  type_changes : List (List Char × List (List Char) × List (List Char))
deriving DecidableEq

/-- `schema_registry.compute_diff`. -/
def compute_diff (old_map new_map : PyDict FieldMeta) : SchemaDiff :=
  ⟨(new_map.map Prod.fst).filter
     (fun k => !old_map.any (fun e => decide (e.1 = k))),
   (old_map.map Prod.fst).filter
     (fun k => !new_map.any (fun e => decide (e.1 = k))),
   new_map.filterMap (fun e =>
     match old_map.find? (fun o => decide (o.1 = e.1)) with
     | some o =>
       if o.2.types.toFinset ≠ e.2.types.toFinset then
         some (e.1, o.2.types, e.2.types)
       else none
     | none => none)⟩

/-- The content hashed into `instance_id`
(`sha1(json.dumps(properties, sort_keys=True) + (file_id or seen_time))`),
modelled by its preimage: the key-sorted properties and either the truthy
file id or the timestamp. -/
structure InstanceId where
  props : List (List Char × InfProp)
  tag : List Char ⊕ Nat
deriving DecidableEq

/-- The content hashed into `logical_id`: the key-sorted
field-name → type-list mapping of the promoted map. -/
abbrev LogicalId := List (List Char × List (List Char))

/-- The in-memory logical-schema document built by `evolve_schema`
(`source_id` is the key it is stored under and is left implicit). -/
structure LogicalDoc where
  logical_id : LogicalId
  updated_at : Nat
  fields_map : PyDict FieldMeta
  fields : List FieldMeta
  storage_error : Option (List Char)
deriving DecidableEq

/-- The in-memory instance-schema document built by `evolve_schema`. -/
structure InstanceDoc where
  instance_id : InstanceId
  generated_at : Nat
  file_id : Option (List Char)
  properties : PyDict InfProp
  fields : List FieldMeta
  storage_error : Option (List Char)
deriving DecidableEq

/-- The 5-tuple returned by `evolve_schema`. -/
structure EvolveResult where
  logical_id : LogicalId
  instance_id : InstanceId
  logical_doc : LogicalDoc
  instance_doc : InstanceDoc
  diff : SchemaDiff
deriving DecidableEq

/-- The merge loop of `evolve_schema`: `dict(old_map)` then per new
field merge-or-insert. -/
def mergeFieldsMap (old_map new_map : PyDict FieldMeta) : PyDict FieldMeta :=
  new_map.foldl (fun m e =>
    dictUpd m e.1 (fun old =>
      match old with
      | some o => _merge_field_meta o e.2
      | none => e.2)) old_map

/-- The promotion filter of `evolve_schema`: merged count at least
`MIN_PROMOTE_COUNT` and a plausible name. -/
def promoteFieldsMap (merged : PyDict FieldMeta) : PyDict FieldMeta :=
  merged.filter (fun e =>
    decide (MIN_PROMOTE_COUNT ≤ e.2.count) && _is_plausible_field_name e.1)

/-- `schema_registry.evolve_schema` for one source.  `old_logical` is
what `get_logical_schema` loaded (the previously persisted logical doc,
or `none`); `seen_time` is `_nowz()`; `instWriteError`/`logWriteError`
are the outcomes of the two durable `json.dump` writes — `none` for
success, or the exception text that the `except` branch attaches as
`storage_error` to the corresponding in-memory document.  Both writes
happen after the documents and the diff are fully built, and a failure
only attaches the error string; the function returns its 5-tuple in
every case. -/
def evolve_schema (old_logical : Option LogicalDoc) (sample_docs : List PyVal)
    (file_id : Option (List Char)) (seen_time : Nat)
    (instWriteError logWriteError : Option (List Char)) : EvolveResult :=
  let safe_docs := sample_docs.filter (fun d => (asDict d).isSome)
  let properties := infer_schema_properties safe_docs
  let instance_id : InstanceId :=
    ⟨sortByKey properties,
     match file_id with
     | some f => if !f.isEmpty then Sum.inl f else Sum.inr seen_time
     | none => Sum.inr seen_time⟩
  let instance_doc : InstanceDoc :=
    ⟨instance_id, seen_time, file_id, properties,
     _fields_map_to_doc (_properties_to_fields_map properties seen_time), none⟩
  let old_map := (old_logical.map (fun l => l.fields_map)).getD []
  let new_map := _properties_to_fields_map properties seen_time
  let merged_map := mergeFieldsMap old_map new_map
  let promoted_map := promoteFieldsMap merged_map
  let diff := compute_diff old_map promoted_map
  let logical_id : LogicalId :=
    (sortByKey promoted_map).map (fun e => (e.1, e.2.types))
  let logical_doc : LogicalDoc :=
    ⟨logical_id, seen_time, promoted_map, _fields_map_to_doc promoted_map, none⟩
  ⟨logical_id, instance_id,
   { logical_doc with storage_error := logWriteError },
   { instance_doc with storage_error := instWriteError },
   diff⟩

/-! ### Lemmas about the cleaning pipeline -/

theorem mem_subRunsGo {p : Char → Bool} {r : List Char} :
    ∀ (st : Bool) (l : List Char), ∀ c ∈ subRunsGo p r st l,
      c ∈ r ∨ (p c = false ∧ c ∈ l) := by
  intro st l
  induction l generalizing st with
  | nil => simp [subRunsGo]
  | cons a as ih =>
    intro c hc
    simp only [subRunsGo] at hc
    by_cases hp : p a
    · rw [if_pos hp] at hc
      rcases List.mem_append.1 hc with h1 | h2
      · cases st with
        | true => simp at h1
        | false => exact Or.inl h1
      · rcases ih true c h2 with h | ⟨hpc, hmem⟩
        · exact Or.inl h
        · exact Or.inr ⟨hpc, List.mem_cons_of_mem a hmem⟩
    · rw [if_neg hp] at hc
      rcases List.mem_cons.1 hc with h1 | h2
      · subst h1
        exact Or.inr ⟨by simpa using hp, List.mem_cons_self _ _⟩
      · rcases ih false c h2 with h | ⟨hpc, hmem⟩
        · exact Or.inl h
        · exact Or.inr ⟨hpc, List.mem_cons_of_mem a hmem⟩

theorem mem_subRuns {p : Char → Bool} {r l : List Char} {c : Char}
    (h : c ∈ subRuns p r l) : c ∈ r ∨ (p c = false ∧ c ∈ l) :=
  mem_subRunsGo false l c h

theorem mem_pyStrip {l : List Char} {c : Char} (h : c ∈ pyStrip l) :
    c ∈ l := by
  unfold pyStrip at h
  rw [List.mem_reverse] at h
  have h2 := List.Sublist.subset (List.dropWhile_sublist pySpace) h
  rw [List.mem_reverse] at h2
  exact List.Sublist.subset (List.dropWhile_sublist pySpace) h2

/-- Every whitespace character surviving `_clean_text` is the plain
space the whitespace-collapsing substitution inserted. -/
theorem clean_text_space {raw : List Char} {c : Char}
    (hc : c ∈ _clean_text raw) (hs : pySpace c = true) : c = ' ' := by
  unfold _clean_text at hc
  rcases mem_subRuns (mem_pyStrip hc) with h | ⟨hp, _⟩
  · simpa using h
  · rw [hs] at hp
    cases hp

theorem lineBoundary_space {c : Char} (h : lineBoundary c = true) :
    pySpace c = true ∧ c ≠ ' ' := by
  simp only [lineBoundary, Bool.or_eq_true, beq_iff_eq] at h
  constructor
  · simp only [pySpace, Bool.or_eq_true, Bool.and_eq_true, beq_iff_eq,
      decide_eq_true_eq]
    omega
  · intro hc
    subst hc
    revert h
    decide

/-- The cleaned text contains no `str.splitlines` boundary character. -/
theorem clean_text_no_boundary (raw : List Char) :
    ∀ c ∈ _clean_text raw, lineBoundary c = false := by
  intro c hc
  by_contra hb
  have hb' : lineBoundary c = true := by
    cases h : lineBoundary c
    · exact absurd h hb
    · rfl
  obtain ⟨hs, hne⟩ := lineBoundary_space hb'
  exact hne (clean_text_space hc hs)

theorem pySplitlinesGo_no_boundary :
    ∀ (l : List Char), (∀ c ∈ l, lineBoundary c = false) →
      ∀ acc, pySplitlinesGo acc l =
        if acc ++ l = [] then [] else [acc ++ l] := by
  intro l
  induction l with
  | nil => intro _ acc; simp [pySplitlinesGo]
  | cons a as ih =>
    intro h acc
    have ha : lineBoundary a = false := h a (List.mem_cons_self a as)
    rw [pySplitlinesGo_step acc a as ha,
      ih (fun c hc => h c (List.mem_cons_of_mem a hc)) (acc ++ [a])]
    simp

/-- `str.splitlines` of a boundary-free string is the whole string (or
nothing when it is empty). -/
theorem pySplitlines_no_boundary {l : List Char}
    (h : ∀ c ∈ l, lineBoundary c = false) :
    pySplitlines l = if l = [] then [] else [l] := by
  unfold pySplitlines
  rw [pySplitlinesGo_no_boundary l h []]
  simp

/-- A newline-free csv input is at most one record. -/
theorem csvSplitRecs_no_newline :
    ∀ (l : List Char), '\n' ∉ l → ∀ (q : Bool) (acc : List Char),
      csvSplitRecs l q acc = if acc ++ l = [] then [] else [acc ++ l] := by
  intro l
  induction l with
  | nil => intro _ q acc; simp [csvSplitRecs]
  | cons a as ih =>
    intro h q acc
    have ha : (a = '\n') = False := by
      simp only [eq_iff_iff, iff_false]
      rintro rfl
      exact h (List.mem_cons_self _ _)
    have has : '\n' ∉ as := fun hc => h (List.mem_cons_of_mem _ hc)
    simp only [csvSplitRecs, ha, decide_False, Bool.false_and,
      Bool.false_eq_true, if_false]
    rw [ih has]
    simp

theorem joinLinesNL_single (l : List Char) : joinLinesNL [l] = l := rfl

/-- Every window over at most one newline-free line yields no record. -/
theorem csvBlockFragments_short (lines : List (List Char)) (i : Nat)
    (hlen : lines.length ≤ 1) (hnl : ∀ l ∈ lines, '\n' ∉ l) :
    csvBlockFragments lines i = [] := by
  have hblock : ∃ b, joinLinesNL ((lines.drop i).take 20) = b ∧ '\n' ∉ b := by
    match lines, hlen with
    | [], _ => exact ⟨[], by simp [joinLinesNL], by simp⟩
    | [l], _ =>
      match i with
      | 0 => exact ⟨l, by simp [joinLinesNL_single],
          hnl l (List.mem_cons_self _ _)⟩
      | i + 1 => exact ⟨[], by simp [joinLinesNL], by simp⟩
  obtain ⟨b, hb, hbn⟩ := hblock
  unfold csvBlockFragments
  rw [hb]
  by_cases hc : b.count ',' < 1
  · rw [if_pos hc]
  · rw [if_neg hc]
    have hrows : (csvReaderRows b).length < 2 := by
      unfold csvReaderRows
      rw [csvSplitRecs_no_newline b hbn false []]
      by_cases hbe : b = [] <;> simp [hbe]
    rw [if_pos hrows]

theorem foldr_append_eq_nil {β γ : Type} (L : List β) (f : β → List γ)
    (hf : ∀ x ∈ L, f x = []) :
    L.foldr (fun i acc => f i ++ acc) [] = ([] : List γ) := by
  induction L with
  | nil => rfl
  | cons b bs ih =>
    simp only [List.foldr_cons, hf b (List.mem_cons_self _ _), List.nil_append]
    exact ih fun x hx => hf x (List.mem_cons_of_mem _ hx)

/-- On boundary-free text every csv window is empty. -/
theorem extract_csv_fragments_nb {t : List Char}
    (h : ∀ c ∈ t, lineBoundary c = false) :
    extract_csv_fragments t = [] := by
  unfold extract_csv_fragments
  have hnl : '\n' ∉ t := by
    intro hc
    have := h '\n' hc
    exact absurd this (by decide)
  have hlines :
      ∀ l ∈ (pySplitlines t).filter (fun ln => !decide (pyStrip ln = [])),
        l = t := by
    intro l hl
    have hmem := List.mem_of_mem_filter hl
    rw [pySplitlines_no_boundary h] at hmem
    by_cases ht : t = []
    · rw [if_pos ht] at hmem; cases hmem
    · rw [if_neg ht] at hmem; simpa using hmem
  have hlen :
      ((pySplitlines t).filter (fun ln => !decide (pyStrip ln = []))).length
        ≤ 1 := by
    rw [pySplitlines_no_boundary h]
    by_cases ht : t = []
    · simp [ht]
    · rw [if_neg ht]
      exact List.length_filter_le _ _
  exact foldr_append_eq_nil _ _ fun i _ =>
    csvBlockFragments_short _ i hlen fun l hl => (hlines l hl) ▸ hnl

/-- On boundary-free text at most one key-value pair is extracted. -/
theorem extract_kv_pairs_nb {t : List Char}
    (h : ∀ c ∈ t, lineBoundary c = false) :
    (extract_kv_pairs t).length ≤ 1 := by
  unfold extract_kv_pairs
  rw [pySplitlines_no_boundary h]
  by_cases ht : t = []
  · simp [ht]
  · rw [if_neg ht]
    calc (List.filterMap _ [t]).length ≤ [t].length :=
          List.length_filterMap_le _ _
      _ = 1 := rfl

/-! ### Claim theorems -/

/-- C3: for every byte input and every filename, the fragment bundle of
`extract_fragments_from_bytes` has `csv_fragments = []` and at most one
pair in `kv_pairs`: `_clean_text` rewrites every whitespace run — every
newline included — to a single space, so the line-based csv-window and
key:value extractors always see a single line.  Both the PDF delegate
and the UTF-8 decode produce some string, which is what the theorem
quantifies over. -/
theorem c3_bundle_is_single_line
    (jsonExtract : List Char → List (PyDict PyVal))
    (htmlExtract : List Char → List (PyDict (List Char)))
    (raw : List Char) :
    (extract_fragments_from_text jsonExtract htmlExtract raw).csv_fragments
        = [] ∧
    (extract_fragments_from_text jsonExtract htmlExtract raw).kv_pairs.length
        ≤ 1 :=
  ⟨extract_csv_fragments_nb (clean_text_no_boundary raw),
   extract_kv_pairs_nb (clean_text_no_boundary raw)⟩

/-- C2 (evaluation at the failing input): on the bytes of the two-line
text `Name: Alice` / `Age: 30`, the bundle's `kv_pairs` is the single
pair `("Name", "Alice Age: 30")` — cleaning merged the two lines before
the key:value extractor ran — whereas `extract_kv_pairs` applied to the
raw two-line text does produce the two pairs the spec scenario claims,
in order and with verbatim keys. -/
theorem c2_clean_text_merges_kv_lines :
    (extract_fragments_from_text (fun _ => []) (fun _ => [])
        "Name: Alice\nAge: 30".toList).kv_pairs
      = [("Name".toList, "Alice Age: 30".toList)] ∧
    extract_kv_pairs "Name: Alice\nAge: 30".toList
      = [("Name".toList, "Alice".toList), ("Age".toList, "30".toList)] := by
  constructor
  · decide
  · decide

/-- C1 (evaluation at the failing input): starting from no stored logical
schema, a first `evolve_schema` call whose sample docs contain the field
`x` promotes nothing (count 1), and because only the *promoted* map is
persisted, the second call merges against a map that has forgotten `x`:
the merged count is 1 again — not 2 as the claim states — so `x` is
still absent from the promoted `fields_map` and the diff's `added` is
empty. -/
theorem c1_promotion_never_reached :
    let doc : PyVal := .vDict [("x".toList, .vInt 1)]
    let r1 := evolve_schema none [doc] none 1 none none
    let r2 := evolve_schema (some r1.logical_doc) [doc] none 2 none none
    r1.logical_doc.fields_map = [] ∧
    r2.logical_doc.fields_map = [] ∧
    r2.diff.added = [] ∧
    (dictGet
        (mergeFieldsMap r1.logical_doc.fields_map
          (_properties_to_fields_map (infer_schema_properties [doc]) 2))
        "x".toList).map FieldMeta.count = some 1 := by
  refine ⟨?_, ?_, ?_, ?_⟩ <;> decide

/-- C9: a failed durable write never escapes `evolve_schema`.  For every
input and every pair of write outcomes, the function still returns its
full 5-tuple; the outcomes are attached verbatim as `storage_error` on
the corresponding in-memory documents (set exactly on failure), and the
ids, the documents otherwise, and the diff are those of the all-success
run. -/
theorem c9_persistence_failure_contained
    (old : Option LogicalDoc) (docs : List PyVal) (fid : Option (List Char))
    (t : Nat) (instErr logErr : Option (List Char)) :
    evolve_schema old docs fid t instErr logErr =
      { evolve_schema old docs fid t none none with
        logical_doc :=
          { (evolve_schema old docs fid t none none).logical_doc with
            storage_error := logErr }
        instance_doc :=
          { (evolve_schema old docs fid t none none).instance_doc with
            storage_error := instErr } } ∧
    (evolve_schema old docs fid t instErr logErr).logical_doc.storage_error
        = logErr ∧
    (evolve_schema old docs fid t instErr logErr).instance_doc.storage_error
        = instErr := by
  refine ⟨rfl, rfl, rfl⟩

theorem filterMap_asDict_map (docs : List (PyDict PyVal)) :
    (docs.map PyVal.vDict).filterMap asDict = docs := by
  induction docs with
  | nil => rfl
  | cons d ds ih => simp only [List.map_cons, List.filterMap_cons, asDict, ih]

/-- C5: with no csv fragments and no html tables, at least two candidate
documents sharing one identical non-empty key set, and only scalar
values, `detect_storage_type` answers `sql` citing the shared column
count and consistency 1 (printed as `1.00` by the f-string). -/
theorem c5_consistent_flat_docs_give_sql (frag : FragmentBundle)
    (docs : List (PyDict PyVal))
    (hcsv : frag.csv_fragments = []) (hhtml : frag.html_tables = [])
    (hlen : 2 ≤ docs.length)
    (hkeys : ∀ d ∈ docs, keyset d = keyset (docs.headD []))
    (hcols : 1 ≤ (keyset (docs.headD [])).card)
    (hscalar : ∀ d ∈ docs, ∀ e ∈ d, _is_scalar e.2 = true) :
    detect_storage_type (docs.map PyVal.vDict) frag
      = (.sql, .consistentFlatRows (keyset (docs.headD [])).card 1) := by
  obtain ⟨d0, rest, rfl⟩ : ∃ d0 rest, docs = d0 :: rest := by
    cases docs with
    | nil => simp at hlen
    | cons a l => exact ⟨a, l, rfl⟩
  have hhead : (d0 :: rest).headD ([] : PyDict PyVal) = d0 := rfl
  rw [hhead] at hkeys hcols ⊢
  have hnest : (d0 :: rest).countP hasNestedValue = 0 := by
    refine List.countP_eq_zero.2 ?_
    intro d hd hcontra
    rw [hasNestedValue, List.any_eq_true] at hcontra
    obtain ⟨e, he, hbe⟩ := hcontra
    rw [hscalar d hd e he] at hbe
    cases hbe
  have hbase : ((d0 :: rest).map keyset).headD ∅ = keyset d0 := rfl
  have hsame : ((d0 :: rest).map keyset).countP
      (fun s => decide (s = ((d0 :: rest).map keyset).headD ∅))
      = ((d0 :: rest).map keyset).length := by
    refine List.countP_eq_length.2 ?_
    intro s hs
    rw [List.mem_map] at hs
    obtain ⟨d, hd, rfl⟩ := hs
    rw [hbase]
    simp [hkeys d hd]
  have hlenq : (((d0 :: rest).map keyset).length : ℚ) ≠ 0 := by
    rw [Nat.cast_ne_zero]
    simp
  have hconsist :
      ((((d0 :: rest).map keyset).countP
          (fun s => decide (s = ((d0 :: rest).map keyset).headD ∅)) : ℚ) /
        (((d0 :: rest).map keyset).length : ℚ)) = 1 := by
    rw [hsame]
    exact div_self hlenq
  have hall : ((d0 :: rest).all (fun d => d.all (fun e => _is_scalar e.2)))
      = true := by
    rw [List.all_eq_true]
    intro d hd
    rw [List.all_eq_true]
    intro e he
    exact hscalar d hd e he
  have hcond : MIN_DOCS_FOR_CONSISTENCY ≤ (d0 :: rest).length ∧
      CONSISTENCY_THRESHOLD ≤
        ((((d0 :: rest).map keyset).countP
            (fun s => decide (s = ((d0 :: rest).map keyset).headD ∅)) : ℚ) /
          (((d0 :: rest).map keyset).length : ℚ)) ∧
      MIN_COLUMNS_FOR_SQL ≤ (((d0 :: rest).map keyset).headD ∅).card := by
    refine ⟨by simpa [MIN_DOCS_FOR_CONSISTENCY] using hlen, ?_, ?_⟩
    · rw [hconsist]
      norm_num [CONSISTENCY_THRESHOLD]
    · rw [hbase]
      simpa [MIN_COLUMNS_FOR_SQL] using hcols
  simp only [detect_storage_type, filterMap_asDict_map]
  rw [if_neg (by simp [hcsv])]
  rw [if_neg (by simp [hhtml])]
  rw [if_neg (show ¬(d0 :: rest = []) by simp)]
  rw [if_neg (show ¬(0 < (d0 :: rest).countP hasNestedValue) by
    simp [hnest])]
  rw [if_pos hcond, if_pos hall, hconsist, hbase]

/-- C6: with no csv fragments and no html tables, any candidate document
carrying a dict or list value forces `detect_storage_type` to answer
`nosql`, the reason counting exactly the documents that contain such a
value — regardless of how consistent the key sets are. -/
theorem c6_nested_docs_give_nosql (frag : FragmentBundle)
    (docs : List (PyDict PyVal))
    (hcsv : frag.csv_fragments = []) (hhtml : frag.html_tables = [])
    (hnested : ∃ d ∈ docs, hasNestedValue d = true) :
    detect_storage_type (docs.map PyVal.vDict) frag
      = (.nosql, .nestedStructures (docs.countP hasNestedValue)) ∧
    0 < docs.countP hasNestedValue := by
  have hpos : 0 < docs.countP hasNestedValue := by
    obtain ⟨d, hd, hn⟩ := hnested
    exact List.countP_pos_iff.2 ⟨d, hd, hn⟩
  have hne : docs ≠ [] := by
    rintro rfl
    obtain ⟨d, hd, _⟩ := hnested
    cases hd
  refine ⟨?_, hpos⟩
  unfold detect_storage_type
  rw [if_neg (by simp [hcsv]), if_neg (by simp [hhtml])]
  simp only [filterMap_asDict_map]
  rw [if_neg hne, if_pos hpos]

/-! ### Dict lemmas for the registry -/

theorem dictGet_dictUpd_self {α : Type} (m : PyDict α) (k : List Char)
    (f : Option α → α) :
    dictGet (dictUpd m k f) k = some (f (dictGet m k)) := by
  induction m with
  | nil => simp [dictUpd, dictGet]
  | cons e es ih =>
    by_cases hk : e.1 = k
    · simp [dictUpd, dictGet, hk]
    · simp [dictUpd, dictGet, hk, ih]

theorem dictGet_dictUpd_ne {α : Type} (m : PyDict α) (k k' : List Char)
    (f : Option α → α) (hne : k' ≠ k) :
    dictGet (dictUpd m k f) k' = dictGet m k' := by
  induction m with
  | nil =>
    simp only [dictUpd, dictGet]
    rw [if_neg (fun h => hne h.symm)]
  | cons e es ih =>
    by_cases hk : e.1 = k
    · simp only [dictUpd, if_pos hk, dictGet]
      rw [if_neg (fun h : k = k' => hne h.symm),
        if_neg (fun h : e.1 = k' => hne (hk.symm.trans h).symm)]
    · simp only [dictUpd, if_neg hk, dictGet]
      by_cases hk' : e.1 = k' <;> simp [hk', ih]

theorem keys_dictUpd {α : Type} (m : PyDict α) (k : List Char)
    (f : Option α → α) :
    (dictUpd m k f).map Prod.fst =
      if k ∈ m.map Prod.fst then m.map Prod.fst
      else m.map Prod.fst ++ [k] := by
  induction m with
  | nil => simp [dictUpd]
  | cons e es ih =>
    by_cases hk : e.1 = k
    · simp only [dictUpd, if_pos hk, List.map_cons]
      rw [if_pos (List.mem_cons.2 (Or.inl hk.symm)), hk]
    · simp only [dictUpd, if_neg hk, List.map_cons, ih]
      by_cases hmem : k ∈ es.map Prod.fst
      · rw [if_pos hmem, if_pos (List.mem_cons.2 (Or.inr hmem))]
      · have hno : k ∉ (e.1 :: es.map Prod.fst) := by
          intro hc
          rcases List.mem_cons.1 hc with h1 | h2
          · exact hk h1.symm
          · exact hmem h2
        rw [if_neg hmem, if_neg hno]
        simp

theorem nodup_keys_dictUpd {α : Type} {m : PyDict α} (k : List Char)
    (f : Option α → α) (hn : (m.map Prod.fst).Nodup) :
    ((dictUpd m k f).map Prod.fst).Nodup := by
  rw [keys_dictUpd]
  by_cases hmem : k ∈ m.map Prod.fst
  · rwa [if_pos hmem]
  · rw [if_neg hmem]
    simp [List.nodup_append, hn, hmem]

theorem dictGet_mem {α : Type} :
    ∀ {m : PyDict α} {k : List Char} {v : α},
      dictGet m k = some v → (k, v) ∈ m := by
  intro m
  induction m with
  | nil => intro k v h; cases h
  | cons e es ih =>
    intro k v h
    obtain ⟨k0, v0⟩ := e
    by_cases hk : k0 = k
    · subst hk
      simp only [dictGet, if_pos rfl] at h
      obtain rfl := Option.some.inj h
      exact List.mem_cons_self _ _
    · simp only [dictGet, if_neg hk] at h
      exact List.mem_cons_of_mem _ (ih h)

theorem dictGet_of_mem_nodup {α : Type} :
    ∀ {m : PyDict α}, (m.map Prod.fst).Nodup →
      ∀ {k : List Char} {v : α}, (k, v) ∈ m → dictGet m k = some v := by
  intro m
  induction m with
  | nil => intro _ k v h; cases h
  | cons e es ih =>
    intro hn k v h
    obtain ⟨k0, v0⟩ := e
    rcases List.mem_cons.1 h with h1 | h2
    · rw [Prod.mk.injEq] at h1
      obtain ⟨rfl, rfl⟩ := h1
      simp [dictGet]
    · have hn' : (k0 :: es.map Prod.fst).Nodup := by
        rw [List.map_cons] at hn
        exact hn
      have hk0 : k0 ≠ k := by
        rintro rfl
        exact (List.nodup_cons.1 hn').1 (List.mem_map.2 ⟨(k0, v), h2, rfl⟩)
      simp only [dictGet, if_neg hk0]
      exact ih (List.nodup_cons.1 hn').2 h2

/-- The invariant satisfied by every fields_map the registry ever
persists for a source (and, vacuously, by the initial empty map): unique
keys, every count at least the promotion threshold, every name
plausible. -/
def fieldsMapInv (m : PyDict FieldMeta) : Prop :=
  (m.map Prod.fst).Nodup ∧
  ∀ e ∈ m, MIN_PROMOTE_COUNT ≤ e.2.count ∧
    _is_plausible_field_name e.1 = true

instance fieldsMapInvDecidable (m : PyDict FieldMeta) :
    Decidable (fieldsMapInv m) := by
  unfold fieldsMapInv
  infer_instance

theorem mergeFieldsMap_mono :
    ∀ (new old : PyDict FieldMeta) (k : List Char) (o : FieldMeta),
      dictGet old k = some o →
      ∃ o', dictGet (mergeFieldsMap old new) k = some o' ∧
        o.count ≤ o'.count := by
  intro new
  induction new with
  | nil => exact fun old k o h => ⟨o, h, le_rfl⟩
  | cons e es ih =>
    intro old k o h
    have hstep : mergeFieldsMap old (e :: es) =
        mergeFieldsMap (dictUpd old e.1 (fun prev =>
          match prev with
          | some o' => _merge_field_meta o' e.2
          | none => e.2)) es := rfl
    rw [hstep]
    by_cases hk : e.1 = k
    · subst hk
      have hself := dictGet_dictUpd_self old e.1 (fun prev =>
        match prev with
        | some o' => _merge_field_meta o' e.2
        | none => e.2)
      rw [h] at hself
      obtain ⟨o', hm, hc⟩ := ih _ e.1 _ hself
      exact ⟨o', hm, le_trans (Nat.le_add_right _ _) hc⟩
    · have hne := dictGet_dictUpd_ne old e.1 k (fun prev =>
        match prev with
        | some o' => _merge_field_meta o' e.2
        | none => e.2) (fun hkk => hk hkk.symm)
      rw [h] at hne
      exact ih _ k o hne

theorem mergeFieldsMap_nodup :
    ∀ (new old : PyDict FieldMeta), (old.map Prod.fst).Nodup →
      ((mergeFieldsMap old new).map Prod.fst).Nodup := by
  intro new
  induction new with
  | nil => exact fun _ h => h
  | cons e es ih => exact fun old h => ih _ (nodup_keys_dictUpd _ _ h)

theorem promoteFieldsMap_nodup {m : PyDict FieldMeta}
    (h : (m.map Prod.fst).Nodup) :
    ((promoteFieldsMap m).map Prod.fst).Nodup :=
  ((List.filter_sublist m).map Prod.fst).nodup h

theorem promoteFieldsMap_inv (m : PyDict FieldMeta)
    (hn : (m.map Prod.fst).Nodup) : fieldsMapInv (promoteFieldsMap m) := by
  refine ⟨promoteFieldsMap_nodup hn, ?_⟩
  intro e he
  have hp := (List.mem_filter.1 he).2
  rw [Bool.and_eq_true, decide_eq_true_eq] at hp
  exact hp

/-- Under the invariant, every field of the old promoted map survives one
merge-and-promote step with a count at least as large. -/
theorem promoted_get {old : PyDict FieldMeta} (new : PyDict FieldMeta)
    (hinv : fieldsMapInv old) {k : List Char} {o : FieldMeta}
    (h : dictGet old k = some o) :
    ∃ o', dictGet (promoteFieldsMap (mergeFieldsMap old new)) k = some o' ∧
      o.count ≤ o'.count := by
  obtain ⟨o', hm, hc⟩ := mergeFieldsMap_mono new old k o h
  have hoe := hinv.2 (k, o) (dictGet_mem h)
  have hpred : (decide (MIN_PROMOTE_COUNT ≤ (k, o').2.count) &&
      _is_plausible_field_name (k, o').1) = true := by
    rw [Bool.and_eq_true, decide_eq_true_eq]
    exact ⟨le_trans hoe.1 hc, hoe.2⟩
  have hmem' : (k, o') ∈ promoteFieldsMap (mergeFieldsMap old new) :=
    List.mem_filter.2 ⟨dictGet_mem hm, hpred⟩
  exact ⟨o', dictGet_of_mem_nodup
    (promoteFieldsMap_nodup (mergeFieldsMap_nodup new old hinv.1)) hmem', hc⟩

/-- C4: one `evolve_schema` step is monotone.  Provided the loaded
fields_map satisfies the invariant every persisted logical schema
satisfies (unique keys, counts ≥ 2, plausible names — established below
and vacuous for the empty initial map, so it propagates along any
sequence of calls, even when a write failure makes a later call reload
an older promoted map), the returned promoted fields_map satisfies the
invariant again, has at least as many fields, and gives every previously
promoted field a count at least as large. -/
theorem c4_evolve_schema_monotone (old : Option LogicalDoc)
    (docs : List PyVal) (fid : Option (List Char)) (t : Nat)
    (e1 e2 : Option (List Char))
    (hinv : fieldsMapInv ((old.map LogicalDoc.fields_map).getD [])) :
    fieldsMapInv (evolve_schema old docs fid t e1 e2).logical_doc.fields_map ∧
    ((old.map LogicalDoc.fields_map).getD []).length ≤
      (evolve_schema old docs fid t e1 e2).logical_doc.fields_map.length ∧
    ∀ (k : List Char) (o : FieldMeta),
      dictGet ((old.map LogicalDoc.fields_map).getD []) k = some o →
      ∃ o', dictGet (evolve_schema old docs fid t e1 e2).logical_doc.fields_map
          k = some o' ∧ o.count ≤ o'.count := by
  have hfm : (evolve_schema old docs fid t e1 e2).logical_doc.fields_map =
      promoteFieldsMap (mergeFieldsMap ((old.map LogicalDoc.fields_map).getD [])
        (_properties_to_fields_map
          (infer_schema_properties
            (docs.filter (fun d => (asDict d).isSome))) t)) := rfl
  rw [hfm]
  set oldMap := (old.map LogicalDoc.fields_map).getD [] with hold
  set newMap := _properties_to_fields_map
    (infer_schema_properties (docs.filter (fun d => (asDict d).isSome))) t
    with hnew
  have hmono : ∀ (k : List Char) (o : FieldMeta), dictGet oldMap k = some o →
      ∃ o', dictGet (promoteFieldsMap (mergeFieldsMap oldMap newMap)) k
          = some o' ∧ o.count ≤ o'.count :=
    fun _ _ h => promoted_get newMap hinv h
  refine ⟨promoteFieldsMap_inv _ (mergeFieldsMap_nodup newMap oldMap hinv.1),
    ?_, hmono⟩
  have hsub : ∀ x ∈ oldMap.map Prod.fst,
      x ∈ (promoteFieldsMap (mergeFieldsMap oldMap newMap)).map Prod.fst := by
    intro x hx
    obtain ⟨e, he, rfl⟩ := List.mem_map.1 hx
    obtain ⟨k0, v0⟩ := e
    obtain ⟨o', ho', _⟩ := hmono k0 v0 (dictGet_of_mem_nodup hinv.1 he)
    exact List.mem_map.2 ⟨(k0, o'), dictGet_mem ho', rfl⟩
  calc oldMap.length = (oldMap.map Prod.fst).length :=
        (List.length_map _ _).symm
    _ = (oldMap.map Prod.fst).toFinset.card :=
        (List.toFinset_card_of_nodup hinv.1).symm
    _ ≤ ((promoteFieldsMap (mergeFieldsMap oldMap newMap)).map
          Prod.fst).toFinset.card := by
        refine Finset.card_le_card ?_
        intro x hx
        exact List.mem_toFinset.2 (hsub x (List.mem_toFinset.1 hx))
    _ ≤ ((promoteFieldsMap (mergeFieldsMap oldMap newMap)).map
          Prod.fst).length := List.toFinset_card_le _
    _ = (promoteFieldsMap (mergeFieldsMap oldMap newMap)).length :=
        List.length_map _ _

/-- A concrete persisted logical doc for the C4 witness: one promoted
field `a` with count 2. -/
def c4StateDoc : LogicalDoc :=
  ⟨[], 0, [("a".toList, ⟨"a".toList, ["int".toList], 2, 0, 0, .vNone⟩)],
   [], none⟩

/-- Witness for the C4 theorem at a concrete state: the invariant holds
of `c4StateDoc`'s map, and one further evolve call with a doc containing
`a` preserves the invariant, never shrinks the promoted map, and never
decreases a promoted count. -/
theorem c4_evolve_schema_monotone_witness :
    fieldsMapInv (((some c4StateDoc).map LogicalDoc.fields_map).getD []) ∧
    (fieldsMapInv (evolve_schema (some c4StateDoc)
        [.vDict [("a".toList, .vInt 3)]] none 5 none
        none).logical_doc.fields_map ∧
      (((some c4StateDoc).map LogicalDoc.fields_map).getD []).length ≤
        (evolve_schema (some c4StateDoc) [.vDict [("a".toList, .vInt 3)]]
          none 5 none none).logical_doc.fields_map.length ∧
      ∀ (k : List Char) (o : FieldMeta),
        dictGet (((some c4StateDoc).map LogicalDoc.fields_map).getD []) k
            = some o →
        ∃ o', dictGet (evolve_schema (some c4StateDoc)
            [.vDict [("a".toList, .vInt 3)]] none 5 none
            none).logical_doc.fields_map k = some o' ∧
          o.count ≤ o'.count) :=
  ⟨by decide,
   c4_evolve_schema_monotone (some c4StateDoc)
     [.vDict [("a".toList, .vInt 3)]] none 5 none none (by decide)⟩

/-- An empty fragment bundle, for the concrete storage-decision
scenarios. -/
def emptyBundle : FragmentBundle := ⟨[], [], [], [], []⟩

/-- Scenario A's two flat candidate documents. -/
def scenarioADocs : List (PyDict PyVal) :=
  [[("name".toList, .vStr "Alice".toList), ("age".toList, .vStr "30".toList)],
   [("name".toList, .vStr "Bob".toList), ("age".toList, .vStr "41".toList)]]

/-- Witness for the C5 theorem at spec Scenario A: the two
name/age documents are classified `sql` with 2 columns and
consistency 1 (printed `1.00`). -/
theorem c5_consistent_flat_docs_give_sql_witness :
    detect_storage_type (scenarioADocs.map PyVal.vDict) emptyBundle
      = (.sql, .consistentFlatRows 2 1) := by
  have h := c5_consistent_flat_docs_give_sql emptyBundle scenarioADocs
    rfl rfl (by decide) (by decide) (by decide) (by decide)
  rw [show (keyset (scenarioADocs.headD [])).card = 2 by decide] at h
  exact h

theorem dictGet_infer_field_types (dp : List Char → Bool) (docs : List PyVal)
    (k : List Char) :
    dictGet (infer_field_types dp docs) k =
      (dictGet (fieldStats dp docs) k).map
        (fun s => (⟨classifyStats s, s.sample, s.counts⟩ : InferredField)) := by
  unfold infer_field_types
  generalize fieldStats dp docs = m
  induction m with
  | nil => rfl
  | cons e es ih =>
    by_cases hk : e.1 = k <;> simp [dictGet, hk, ih]

/-- Which values bump the boolean tally: exactly the boolean-like values
that are neither int-parseable nor float-parseable (the earlier branches
of the elif chain capture those first). -/
theorem tallyValue_boolc (dp : List Char → Bool) (st : FieldStats)
    (v : PyVal) :
    (tallyValue dp st v).boolc =
      st.boolc + (if _is_int v = false ∧ _is_float v = false ∧
        _is_bool v = true then 1 else 0) := by
  unfold tallyValue
  by_cases h1 : _is_int v
  · simp [h1]
  · by_cases h2 : _is_float v
    · simp [h1, h2]
    · by_cases h3 : _is_bool v
      · simp [h1, h2, h3]
      · by_cases h4 : _is_date dp v
        · simp [h1, h2, h3, h4]
        · cases v <;> simp [h1, h2, h3, h4] at *

/-- C7 counterexample: an actual Python boolean is not tallied as a
boolean occurrence.  `float(True)` succeeds while `_is_int` rejects
bools, so the single occurrence `True` of field `b` lands in the float
tally (stats `counts=1, int=0, float=1, bool=0`), and the field is
classified `decimal`, not `boolean`. -/
theorem c7_counterexample_bool_tallied_as_float :
    dictGet (fieldStats (fun _ => false)
        [.vDict [("b".toList, .vBool true)]]) "b".toList
      = some ⟨1, 0, 1, 0, 0, 0, 0, .vBool true⟩ ∧
    (dictGet (infer_field_types (fun _ => false)
        [.vDict [("b".toList, .vBool true)]]) "b".toList).map
        InferredField.type
      = some "decimal".toList := by
  refine ⟨by decide, ?_⟩
  rw [dictGet_infer_field_types,
    show dictGet (fieldStats (fun _ => false)
      [.vDict [("b".toList, .vBool true)]]) "b".toList
      = some ⟨1, 0, 1, 0, 0, 0, 0, .vBool true⟩ from by decide]
  simp only [Option.map_some']
  norm_num [classifyStats, DATE_THRESHOLD, INT_THRESHOLD, FLOAT_THRESHOLD]

/-- C7 (amended): occurrences are tallied as boolean exactly when they
are boolean-like and neither int- nor float-parseable (actual bools and
the strings `"1"`/`"0"` are captured by the earlier int/float branches);
and a field that triggers none of the earlier precedence rules and whose
boolean ratio is at least 0.8 is classified `boolean`. -/
theorem c7_boolean_classification (dp : List Char → Bool) (docs : List PyVal)
    (k : List Char) (s : FieldStats)
    (hs : dictGet (fieldStats dp docs) k = some s)
    (hobj : s.objectc = 0) (harr : s.arrayc = 0)
    (hdate : ¬ DATE_THRESHOLD ≤ (s.datec : ℚ) / (s.counts : ℚ))
    (hint : ¬ INT_THRESHOLD ≤ (s.intc : ℚ) / (s.counts : ℚ))
    (hdec : ¬ (FLOAT_THRESHOLD ≤ (s.floatc : ℚ) / (s.counts : ℚ) ∨
      ((4 : ℚ) / 5 ≤ ((s.intc : ℚ) + (s.floatc : ℚ)) / (s.counts : ℚ) ∧
        0 < s.floatc)))
    (hbool : (4 : ℚ) / 5 ≤ (s.boolc : ℚ) / (s.counts : ℚ)) :
    dictGet (infer_field_types dp docs) k
      = some ⟨"boolean".toList, s.sample, s.counts⟩ ∧
    ∀ (st : FieldStats) (v : PyVal),
      (tallyValue dp st v).boolc =
        st.boolc + (if _is_int v = false ∧ _is_float v = false ∧
          _is_bool v = true then 1 else 0) := by
  refine ⟨?_, fun st v => tallyValue_boolc dp st v⟩
  rw [dictGet_infer_field_types, hs]
  simp only [Option.map_some']
  have hclass : classifyStats s = "boolean".toList := by
    unfold classifyStats
    rw [if_neg (by omega), if_neg (by omega), if_neg hdate, if_neg hint,
      if_neg hdec, if_pos hbool]
  rw [hclass]

/-- The two documents of the C7 witness (field `b` is `"yes"` then
`"no"`). -/
def c7Docs : List PyVal :=
  [.vDict [("b".toList, .vStr "yes".toList)],
   .vDict [("b".toList, .vStr "no".toList)]]

/-- The stats `fieldStats` accumulates for field `b` of `c7Docs`. -/
def c7Stats : FieldStats :=
  ⟨2, 0, 0, 2, 0, 0, 0, .vStr "yes".toList⟩

/-- Witness for the C7 theorem: on two yes/no occurrences the boolean
ratio is 1 ≥ 0.8, no earlier rule fires, and the field is classified
`boolean`. -/
theorem c7_boolean_classification_witness :
    dictGet (infer_field_types (fun _ => false) c7Docs) "b".toList
      = some ⟨"boolean".toList, c7Stats.sample, c7Stats.counts⟩ :=
  (c7_boolean_classification (fun _ => false) c7Docs "b".toList c7Stats
    (by decide) (by decide) (by decide)
    (by norm_num [c7Stats, DATE_THRESHOLD])
    (by norm_num [c7Stats, INT_THRESHOLD])
    (by norm_num [c7Stats, FLOAT_THRESHOLD])
    (by norm_num [c7Stats])).1

/-- C8 counterexample: for docs `[{"Name": "Alice"}]` the inferred field
set is `{"Name"}` but the DDL's column-name set is `{"name"}` — the
column rewrite lowercases, so the two sets are not equal as the claim
states. -/
theorem c8_counterexample_column_set_differs :
    ((generate_sql_schema (fun _ => false) "t".toList
        [.vDict [("Name".toList, .vStr "Alice".toList)]]).cols.map Prod.fst
      = ["name".toList]) ∧
    ((infer_field_types (fun _ => false)
        [.vDict [("Name".toList, .vStr "Alice".toList)]]).map Prod.fst
      = ["Name".toList]) ∧
    "Name".toList ∉ ["name".toList] := by
  refine ⟨by decide, by decide, by decide⟩

/-- C8 (amended): for non-empty docs, the DDL's column-name list is
exactly the image of the inferred field-name list under the SQL column
rewrite (every non-`[A-Za-z0-9_]` character to `_`, then lowercase) —
in order, hence also as sets. -/
theorem c8_columns_are_rewritten_fields (dp : List Char → Bool)
    (tn : List Char) (docs : List PyVal) (h : docs ≠ []) :
    (generate_sql_schema dp tn docs).cols.map Prod.fst
      = ((infer_field_types dp docs).map Prod.fst).map sqlColName ∧
    ((generate_sql_schema dp tn docs).cols.map Prod.fst).toFinset
      = ((infer_field_types dp docs).map Prod.fst).toFinset.image
          sqlColName := by
  have hcols : (generate_sql_schema dp tn docs).cols
      = (infer_field_types dp docs).map
          (fun e => (sqlColName e.1, _sql_type_from_inferred e.2.type)) := by
    unfold generate_sql_schema
    rw [if_neg h]
  have h1 : (generate_sql_schema dp tn docs).cols.map Prod.fst
      = ((infer_field_types dp docs).map Prod.fst).map sqlColName := by
    rw [hcols]
    simp [List.map_map, Function.comp_def]
  refine ⟨h1, ?_⟩
  rw [h1]
  refine Finset.ext fun x => ?_
  rw [List.mem_toFinset, Finset.mem_image, List.mem_map]
  constructor
  · rintro ⟨a, ha, rfl⟩
    exact ⟨a, List.mem_toFinset.2 ha, rfl⟩
  · rintro ⟨a, ha, rfl⟩
    exact ⟨a, List.mem_toFinset.1 ha, rfl⟩

/-- Witness for the C8 theorem at the counterexample's input: the column
list is the `sqlColName` image of the field list. -/
theorem c8_columns_are_rewritten_fields_witness :
    (generate_sql_schema (fun _ => false) "t".toList
        [.vDict [("Name".toList, .vStr "Alice".toList)]]).cols.map Prod.fst
      = ((infer_field_types (fun _ => false)
          [.vDict [("Name".toList, .vStr "Alice".toList)]]).map
            Prod.fst).map sqlColName :=
  (c8_columns_are_rewritten_fields (fun _ => false) "t".toList
    [.vDict [("Name".toList, .vStr "Alice".toList)]] (by simp)).1

/-- The target class of the sanitization claim: `[a-z0-9_]`. -/
def lowerWordChar (c : Char) : Bool :=
  lowerAlpha c || asciiDigit c || c.toNat == 95

theorem char_toNat_ofNat_lower {n : Nat} (h1 : 97 ≤ n) (h2 : n ≤ 122) :
    (Char.ofNat n).toNat = n := by
  have hv : n.isValidChar := Or.inl (by omega)
  simp [Char.ofNat, hv, Char.toNat, Char.ofNatAux, UInt32.toNat,
    BitVec.toNat_ofNatLt]

/-- Lowercasing never produces an ASCII uppercase letter. -/
theorem pyLowerChar_not_upper (c : Char) :
    upperAlpha (pyLowerChar c) = false := by
  unfold pyLowerChar
  by_cases h : upperAlpha c
  · rw [if_pos h]
    unfold upperAlpha at h ⊢
    rw [Bool.and_eq_true, decide_eq_true_eq, decide_eq_true_eq] at h
    have ht : (Char.ofNat (c.toNat + 32)).toNat = c.toNat + 32 :=
      char_toNat_ofNat_lower (by omega) (by omega)
    rw [ht]
    have hn : ¬ (c.toNat + 32 ≤ 90) := by omega
    simp [hn]
  · rw [if_neg h]
    simpa using h

/-- Every character of a sanitized key is in `[a-z0-9_]`. -/
theorem sanitizeKey_chars {k : List Char} {c : Char}
    (hc : c ∈ sanitizeKey k) : lowerWordChar c = true := by
  unfold sanitizeKey at hc
  obtain ⟨hmem, hword⟩ := List.mem_filter.1 hc
  rcases mem_subRuns hmem with h | ⟨_, hmem2⟩
  · rw [List.mem_singleton] at h
    subst h
    decide
  · obtain ⟨c0, _, rfl⟩ := List.mem_map.1 hmem2
    have hup := pyLowerChar_not_upper c0
    unfold upperAlpha at hup
    rw [Bool.and_eq_false_iff] at hup
    unfold wordChar upperAlpha lowerAlpha asciiDigit at hword
    unfold lowerWordChar lowerAlpha asciiDigit
    simp only [Bool.or_eq_true, Bool.and_eq_true, decide_eq_true_eq,
      beq_iff_eq] at hword ⊢
    rw [decide_eq_false_iff_not, decide_eq_false_iff_not] at hup
    rcases hup with hu | hu <;> omega

theorem mem_dictInsert {α : Type} :
    ∀ {m : PyDict α} {k : List Char} {v : α} {e : List Char × α},
      e ∈ dictInsert m k v → e ∈ m ∨ e = (k, v) := by
  intro m
  induction m with
  | nil =>
    intro k v e h
    simp only [dictInsert, dictUpd] at h
    rw [List.mem_singleton] at h
    exact Or.inr h
  | cons e0 es ih =>
    intro k v e h
    simp only [dictInsert, dictUpd] at h ih
    by_cases hk : e0.1 = k
    · rw [if_pos hk] at h
      rcases List.mem_cons.1 h with h1 | h2
      · exact Or.inr h1
      · exact Or.inl (List.mem_cons_of_mem _ h2)
    · rw [if_neg hk] at h
      rcases List.mem_cons.1 h with h1 | h2
      · exact Or.inl (h1 ▸ List.mem_cons_self _ _)
      · rcases ih h2 with h3 | h4
        · exact Or.inl (List.mem_cons_of_mem _ h3)
        · exact Or.inr h4

/-- Invariant of `_sanitize_keys`: every output entry's key is some
original key's sanitized form, nonempty and at most 60 long (keys whose
sanitized form fails the guard never contribute an entry). -/
theorem sanitize_keys_spec {α : Type} (d : PyDict α) :
    ∀ e ∈ _sanitize_keys d,
      (∃ k0, e.1 = sanitizeKey k0) ∧ e.1 ≠ [] ∧ e.1.length ≤ 60 := by
  have main : ∀ (l acc : PyDict α),
      (∀ e ∈ acc,
        (∃ k0, e.1 = sanitizeKey k0) ∧ e.1 ≠ [] ∧ e.1.length ≤ 60) →
      ∀ e ∈ l.foldl (fun out e =>
          let k2 := sanitizeKey e.1
          if k2 = [] ∨ 60 < k2.length then out
          else dictInsert out k2 e.2) acc,
        (∃ k0, e.1 = sanitizeKey k0) ∧ e.1 ≠ [] ∧ e.1.length ≤ 60 := by
    intro l
    induction l with
    | nil => exact fun acc h => h
    | cons kv rest ih =>
      intro acc hacc e he
      rw [List.foldl_cons] at he
      refine ih _ ?_ e he
      intro e' he'
      by_cases hbad : sanitizeKey kv.1 = [] ∨ 60 < (sanitizeKey kv.1).length
      · simp only [if_pos hbad] at he'
        exact hacc e' he'
      · simp only [if_neg hbad] at he'
        rcases mem_dictInsert he' with hm | hm
        · exact hacc e' hm
        · subst hm
          push_neg at hbad
          refine ⟨⟨kv.1, rfl⟩, hbad.1, ?_⟩
          show (sanitizeKey kv.1).length ≤ 60
          omega
  intro e he
  exact main d [] (fun e' he' => absurd he' (List.not_mem_nil e')) e he

theorem mem_foldr_append {β γ : Type} {L : List β} {f : β → List γ} {x : γ}
    (h : x ∈ L.foldr (fun i acc => f i ++ acc) []) : ∃ i ∈ L, x ∈ f i := by
  induction L with
  | nil => cases h
  | cons b bs ih =>
    rw [List.foldr_cons] at h
    rcases List.mem_append.1 h with h1 | h2
    · exact ⟨b, List.mem_cons_self _ _, h1⟩
    · obtain ⟨i, hi, hx⟩ := ih h2
      exact ⟨i, List.mem_cons_of_mem _ hi, hx⟩

/-- Every record a csv window emits went through `_sanitize_keys`. -/
theorem csvBlockFragments_sanitized {lines : List (List Char)} {i : Nat}
    {r : PyDict (List Char)} (h : r ∈ csvBlockFragments lines i) :
    ∃ hdr row, r = _sanitize_keys (csvRowToObj hdr row) := by
  simp only [csvBlockFragments] at h
  split at h
  · cases h
  · split at h
    · cases h
    · split at h
      · cases h
      · split at h
        · cases h
        · obtain ⟨row, _, rfl⟩ := List.mem_map.1 h
          exact ⟨_, row, rfl⟩

/-- C10: every key of every record emitted through `_sanitize_keys` —
and the html-table and csv paths sanitize every record they emit, as the
second conjunct verifies end-to-end for the csv extractor — is nonempty,
at most 60 characters, and matches `^[a-z0-9_]+$`; any key whose
sanitized form is empty or longer than 60 characters contributes no
entry (every output entry arises from a key whose sanitized form passed
that guard). -/
theorem c10_sanitized_keys_shape :
    (∀ (α : Type) (d : PyDict α), ∀ e ∈ _sanitize_keys d,
      e.1 ≠ [] ∧ e.1.length ≤ 60 ∧ e.1.all lowerWordChar = true) ∧
    ∀ (text : List Char), ∀ r ∈ extract_csv_fragments text, ∀ e ∈ r,
      e.1 ≠ [] ∧ e.1.length ≤ 60 ∧ e.1.all lowerWordChar = true := by
  have part1 : ∀ (α : Type) (d : PyDict α), ∀ e ∈ _sanitize_keys d,
      e.1 ≠ [] ∧ e.1.length ≤ 60 ∧ e.1.all lowerWordChar = true := by
    intro α d e he
    obtain ⟨⟨k0, hk0⟩, hne, hlen⟩ := sanitize_keys_spec d e he
    refine ⟨hne, hlen, ?_⟩
    rw [List.all_eq_true]
    intro c hc
    rw [hk0] at hc
    exact sanitizeKey_chars hc
  refine ⟨part1, ?_⟩
  intro text r hr e he
  unfold extract_csv_fragments at hr
  obtain ⟨i, _, hbi⟩ := mem_foldr_append hr
  obtain ⟨hdr, row, rfl⟩ := csvBlockFragments_sanitized hbi
  exact part1 _ _ e he

/-- Witness for the C10 theorem: the key `"Na me!"` sanitizes to
`na_me`, which is nonempty, short enough, and inside `[a-z0-9_]`. -/
theorem c10_sanitized_keys_shape_witness :
    "na_me".toList ≠ [] ∧ "na_me".toList.length ≤ 60 ∧
      "na_me".toList.all lowerWordChar = true :=
  c10_sanitized_keys_shape.1 Nat [("Na me!".toList, 5)]
    ("na_me".toList, 5) (by decide)

/-- Scenario B's single document with a nested value. -/
def scenarioBDocs : List (PyDict PyVal) :=
  [[("a".toList, .vInt 1), ("b".toList, .vDict [("x".toList, .vInt 1)])]]

/-- Witness for the C6 theorem at spec Scenario B: the document with the
nested `b` value is classified `nosql` with nested-structure count 1. -/
theorem c6_nested_docs_give_nosql_witness :
    detect_storage_type (scenarioBDocs.map PyVal.vDict) emptyBundle
      = (.nosql, .nestedStructures 1) ∧ 0 < scenarioBDocs.countP hasNestedValue := by
  have h := c6_nested_docs_give_nosql emptyBundle scenarioBDocs rfl rfl
    ⟨scenarioBDocs.headD [], by decide, by decide⟩
  rwa [show scenarioBDocs.countP hasNestedValue = 1 by decide] at h

end Auraverse
